import Mathlib

/-!
Verification of the ragnarbot orchestration core against its specification.

Shallow embedding of the relevant program parts:
* `ragnarbot/agent/fallback.py` — fallback provider state tracking,
* `ragnarbot/agent/subagent.py` — sub-agent manager (spawn validation, tool
  registry construction, the agent execution loop, result announcements),
* `ragnarbot/providers/litellm_provider.py` — truncated-JSON argument
  recovery and the chat call structure.

Python integers are modelled as `Int`, Python strings as `String`, Python
dicts (insertion-ordered, assignment keeps the position of an existing key)
as association lists with an update-or-append insert.  Wall-clock and
monotonic-clock readings are not modelled; where the code formats an elapsed
time the embedding takes the formatted string as an abstract parameter.
-/

/-- A single-quote character, used when building user-visible strings. -/
def squote : String := String.singleton (Char.ofNat 39)

/-! ## `ragnarbot/agent/fallback.py` -/

/-- `FallbackState` from `fallback.py`: the two persisted fields.
The third field `last_primary_probe` (a monotonic-clock reading, never
persisted) is not modelled; no claim mentions it. -/
structure FallbackState where
  consecutive_failures : Int
  fallback_mode : Bool
deriving DecidableEq, Repr

/-- The default state `FallbackState()`. -/
def FallbackState.default : FallbackState := ⟨0, false⟩

/-- `FallbackState.record_primary_success`: reset the counter and the mode,
returning whether the state was in fallback mode before the call. -/
def FallbackState.record_primary_success (s : FallbackState) :
    Bool × FallbackState :=
  (s.fallback_mode, ⟨0, false⟩)

/-- `FallbackState.record_primary_failure(threshold)`: increment the counter;
enter fallback mode (returning `true`) when not already in fallback mode and
the incremented counter reaches the threshold. -/
def FallbackState.record_primary_failure (threshold : Int)
    (s : FallbackState) : Bool × FallbackState :=
  if s.fallback_mode = false ∧ threshold ≤ s.consecutive_failures + 1 then
    (true, ⟨s.consecutive_failures + 1, true⟩)
  else
    (false, ⟨s.consecutive_failures + 1, s.fallback_mode⟩)

/-- A sequence of `record_primary_failure` calls with the given thresholds,
with no intervening `record_primary_success`. -/
def FallbackState.applyFailures (ts : List Int) (s : FallbackState) :
    FallbackState :=
  ts.foldl (fun st t => (FallbackState.record_primary_failure t st).2) s

/-- The on-disk state file for `FallbackState.save`/`load`.  The embedding
models the `json.dumps`/`json.loads` boundary: a present file is either a
parseable two-field JSON object (each field optional, mirroring
`data.get(key, default)`) or unparseable text (on which `json.loads` raises
`json.JSONDecodeError`). -/
inductive StateFile where
  | parsed (cf : Option Int) (fm : Option Bool)
  | unparseable
deriving DecidableEq, Repr

/-- `FallbackState.save`: delete the file (result `none`) when the state is
default, else write the two-field JSON object. -/
def FallbackState.save (s : FallbackState) : Option StateFile :=
  if s.consecutive_failures = 0 ∧ s.fallback_mode = false then
    none
  else
    some (.parsed (some s.consecutive_failures) (some s.fallback_mode))

/-- `FallbackState.load`: absent file or unparseable content gives the
default state; otherwise each field defaults as in `data.get(key, default)`. -/
def FallbackState.load : Option StateFile → FallbackState
  | none => ⟨0, false⟩
  | some .unparseable => ⟨0, false⟩
  | some (.parsed cf fm) => ⟨cf.getD 0, fm.getD false⟩

/-! ### Claims C1, C2, C7 -/

/-- Claim C1: for every `FallbackState` and every threshold `t ≥ 1`,
`record_primary_failure(t)` increments `consecutive_failures` by exactly one
and returns `true` (with `fallback_mode` set to `true`) iff `fallback_mode`
was `false` before the call and the incremented counter is `≥ t`; with
`t = 3`, two failures from the default state cause no mode change and the
third sets `fallback_mode` to `true`. -/
theorem c1_record_primary_failure (s : FallbackState) (t : Int)
    (ht : 1 ≤ t) :
    ((FallbackState.record_primary_failure t s).2.consecutive_failures =
      s.consecutive_failures + 1
    ∧ ((FallbackState.record_primary_failure t s).1 = true ↔
        s.fallback_mode = false ∧ t ≤ s.consecutive_failures + 1)
    ∧ ((FallbackState.record_primary_failure t s).1 = true →
        (FallbackState.record_primary_failure t s).2.fallback_mode = true))
    ∧ ((FallbackState.record_primary_failure 3 FallbackState.default).1 = false
    ∧ (FallbackState.record_primary_failure 3 FallbackState.default).2.fallback_mode = false
    ∧ (FallbackState.record_primary_failure 3
        (FallbackState.record_primary_failure 3 FallbackState.default).2).1 = false
    ∧ (FallbackState.record_primary_failure 3
        (FallbackState.record_primary_failure 3 FallbackState.default).2).2.fallback_mode = false
    ∧ (FallbackState.record_primary_failure 3
        (FallbackState.record_primary_failure 3
          (FallbackState.record_primary_failure 3 FallbackState.default).2).2).1 = true
    ∧ (FallbackState.record_primary_failure 3
        (FallbackState.record_primary_failure 3
          (FallbackState.record_primary_failure 3 FallbackState.default).2).2).2.fallback_mode
        = true) := by
  refine ⟨⟨?_, ?_, ?_⟩, by decide⟩
  · unfold FallbackState.record_primary_failure
    split <;> simp
  · unfold FallbackState.record_primary_failure
    split <;> simp_all
  · unfold FallbackState.record_primary_failure
    split <;> simp

/-- Witness for C1 at the concrete state `⟨0, false⟩` and threshold `1`. -/
theorem c1_record_primary_failure_witness :
    (FallbackState.record_primary_failure 1 ⟨0, false⟩).2.consecutive_failures
      = 0 + 1 :=
  (c1_record_primary_failure ⟨0, false⟩ 1 (by decide)).1.1

/-- Claim C2: with no intervening `record_primary_success`, a sequence of
`record_primary_failure` calls leaves `consecutive_failures` non-decreasing;
a single `record_primary_success` resets the counter to `0`, clears
`fallback_mode`, and returns `true` exactly when `fallback_mode` was `true`
before the call. -/
theorem c2_failure_monotone_success_resets :
    (∀ (ts : List Int) (s : FallbackState),
      s.consecutive_failures ≤
        (FallbackState.applyFailures ts s).consecutive_failures)
    ∧ (∀ s : FallbackState,
        (FallbackState.record_primary_success s).2.consecutive_failures = 0
      ∧ (FallbackState.record_primary_success s).2.fallback_mode = false
      ∧ ((FallbackState.record_primary_success s).1 = true ↔
          s.fallback_mode = true)) := by
  constructor
  · have hstep : ∀ (t : Int) (s : FallbackState),
        (FallbackState.record_primary_failure t s).2.consecutive_failures =
          s.consecutive_failures + 1 := by
      intro t s
      unfold FallbackState.record_primary_failure
      split <;> simp
    intro ts
    induction ts with
    | nil => intro s; simp [FallbackState.applyFailures]
    | cons t ts ih =>
      intro s
      have h := ih (FallbackState.record_primary_failure t s).2
      simp only [FallbackState.applyFailures, List.foldl_cons] at h ⊢
      have := hstep t s
      omega
  · intro s
    refine ⟨rfl, rfl, ?_⟩
    simp [FallbackState.record_primary_success]

/-- Claim C7: `save` deletes the file exactly on the default state and writes
the two persisted fields otherwise; `load` of an absent or unparseable file
is the default state; `load` after `save` round-trips
`consecutive_failures` and `fallback_mode`. -/
theorem c7_save_load_roundtrip :
    (∀ s : FallbackState,
      s.consecutive_failures = 0 ∧ s.fallback_mode = false →
        FallbackState.save s = none)
    ∧ (∀ s : FallbackState,
        ¬(s.consecutive_failures = 0 ∧ s.fallback_mode = false) →
        FallbackState.save s =
          some (.parsed (some s.consecutive_failures) (some s.fallback_mode)))
    ∧ FallbackState.load none = ⟨0, false⟩
    ∧ FallbackState.load (some .unparseable) = ⟨0, false⟩
    ∧ (∀ s : FallbackState,
        (FallbackState.load (FallbackState.save s)).consecutive_failures =
          s.consecutive_failures
      ∧ (FallbackState.load (FallbackState.save s)).fallback_mode =
          s.fallback_mode) := by
  refine ⟨?_, ?_, rfl, rfl, ?_⟩
  · intro s h
    simp [FallbackState.save, h.1, h.2]
  · intro s h
    simp only [FallbackState.save, if_neg h]
  · intro s
    by_cases h : s.consecutive_failures = 0 ∧ s.fallback_mode = false
    · simp [FallbackState.save, FallbackState.load, h.1, h.2]
    · simp [FallbackState.save, FallbackState.load, if_neg h]

/-- Witness for C7 at the concrete states `⟨0, false⟩` and `⟨2, false⟩`. -/
theorem c7_save_load_roundtrip_witness :
    FallbackState.save ⟨0, false⟩ = none
    ∧ FallbackState.save ⟨2, false⟩ = some (.parsed (some 2) (some false))
    ∧ (FallbackState.load (FallbackState.save ⟨2, true⟩)).consecutive_failures
        = 2 :=
  ⟨c7_save_load_roundtrip.1 ⟨0, false⟩ (by decide),
   c7_save_load_roundtrip.2.1 ⟨2, false⟩ (by decide),
   (c7_save_load_roundtrip.2.2.2.2 ⟨2, true⟩).1⟩

/-! ## `LiteLLMProvider._recover_truncated_json` (`litellm_provider.py`)

The two regular expressions of the source,
pattern1 matching a complete top-level string field and pattern2 matching a
field opener, are embedded as deterministic scanners.  Both patterns are
backtracking-free on these inputs: the greedy `\w+`, `\s*` and value runs can
never profit from stopping early because the character that follows a shorter
run can never equal the literal the pattern requires next.  `re.finditer`
semantics (leftmost, non-overlapping, resume at the match end) are embedded
with an explicit step budget of the input length, which every step strictly
decreases below. -/

/-- Python `\w` over its ASCII range: letters, digits, underscore. -/
def isWordChar (c : Char) : Bool :=
  c.isAlpha || c.isDigit || c = '_'

/-- Python `\s` over its ASCII range. -/
def isSpaceChar (c : Char) : Bool :=
  c = ' ' || c = '\t' || c = '\n' || c = '\r' || c = '\x0b' || c = '\x0c'

/-- Greedy `\w+` run: the matched word characters and the remainder. -/
def takeWord : List Char → List Char × List Char
  | [] => ([], [])
  | c :: rest =>
    if isWordChar c then
      ((takeWord rest).1.cons c, (takeWord rest).2)
    else ([], c :: rest)

/-- Greedy `\s*` run: the remainder after the whitespace. -/
def dropSpaces : List Char → List Char
  | [] => []
  | c :: rest => if isSpaceChar c then dropSpaces rest else c :: rest

/-- Greedy `(?:[^"\\]|\\.)*` followed by the closing `"`.  Returns the raw
value characters (escape sequences kept) and the remainder after the closing
quote; `none` when no closing quote is reachable (the `.` of `\\.` does not
match a newline, so a backslash directly before a newline or at the end of
the input blocks the whole match). -/
def matchBody : List Char → Option (List Char × List Char)
  | [] => none
  | '"' :: rest => some ([], rest)
  | '\\' :: rest =>
    match rest with
    | [] => none
    | c2 :: rest2 =>
      if c2 = '\n' then none
      else
        match matchBody rest2 with
        | some (v, r) => some ('\\' :: c2 :: v, r)
        | none => none
  | c :: rest =>
    match matchBody rest with
    | some (v, r) => some (c :: v, r)
    | none => none

/-- Match pattern1 `"(\w+)"\s*:\s*"((?:[^"\\]|\\.)*)"` at the head of the
input: the key, the raw value, and the remainder after the match. -/
def matchPairAt : List Char → Option (String × String × List Char)
  | '"' :: rest =>
    match takeWord rest with
    | ([], _) => none
    | (w, rest1) =>
      match rest1 with
      | '"' :: rest2 =>
        match dropSpaces rest2 with
        | ':' :: rest4 =>
          match dropSpaces rest4 with
          | '"' :: rest6 =>
            match matchBody rest6 with
            | some (v, r) => some (String.mk w, String.mk v, r)
            | none => none
          | _ => none
        | _ => none
      | _ => none
  | _ => none

/-- Match pattern2 `"(\w+)"\s*:\s*"` at the head of the input: the key and
the remainder after the opening value quote (the match end). -/
def matchOpenAt : List Char → Option (String × List Char)
  | '"' :: rest =>
    match takeWord rest with
    | ([], _) => none
    | (w, rest1) =>
      match rest1 with
      | '"' :: rest2 =>
        match dropSpaces rest2 with
        | ':' :: rest4 =>
          match dropSpaces rest4 with
          | '"' :: rest6 => some (String.mk w, rest6)
          | _ => none
        | _ => none
      | _ => none
  | _ => none

/-- `re.finditer` for pattern1 with an explicit step budget. -/
def findPairsFuel : Nat → List Char → List (String × String)
  | 0, _ => []
  | _, [] => []
  | fuel + 1, c :: rest =>
    match matchPairAt (c :: rest) with
    | some (k, v, r) => (k, v) :: findPairsFuel fuel r
    | none => findPairsFuel fuel rest

/-- All pattern1 matches of the input, leftmost and non-overlapping. -/
def findPairs (s : List Char) : List (String × String) :=
  findPairsFuel s.length s

/-- `re.finditer` for pattern2 with an explicit step budget. -/
def findOpensFuel : Nat → List Char → List (String × List Char)
  | 0, _ => []
  | _, [] => []
  | fuel + 1, c :: rest =>
    match matchOpenAt (c :: rest) with
    | some (k, r) => (k, r) :: findOpensFuel fuel r
    | none => findOpensFuel fuel rest

/-- All pattern2 matches of the input, leftmost and non-overlapping. -/
def findOpens (s : List Char) : List (String × List Char) :=
  findOpensFuel s.length s

/-- Python `str.replace` specialised to a two-character pattern replaced by
one character, scanning left to right without overlap. -/
def replacePair (x y z : Char) : List Char → List Char
  | [] => []
  | [c] => [c]
  | c1 :: c2 :: rest =>
    if c1 = x ∧ c2 = y then z :: replacePair x y z rest
    else c1 :: replacePair x y z (c2 :: rest)

/-- `.replace('\\"', '"').replace("\\n", "\n")` from the source. -/
def unescapeChars (s : List Char) : List Char :=
  replacePair '\\' 'n' '\n' (replacePair '\\' '"' '"' s)

/-- The same unescaping on a `String`. -/
def unescapeStr (s : String) : String := String.mk (unescapeChars s.data)

/-- Python `rstrip('\\')`. -/
def rstripBackslashes (s : List Char) : List Char :=
  (s.reverse.dropWhile (fun c => c = '\\')).reverse

/-- Value of the first entry of an association list with the given key. -/
def lookupKey (d : List (String × String)) (k : String) : Option String :=
  match d with
  | [] => none
  | p :: t => if p.1 = k then some p.2 else lookupKey t k

/-- Python `k in d` for a dict. -/
def containsKey (d : List (String × String)) (k : String) : Bool :=
  match d with
  | [] => false
  | p :: t => p.1 = k || containsKey t k

/-- Python dict assignment `d[k] = v`: update the existing entry in place,
else append. -/
def dictInsert (d : List (String × String)) (k v : String) :
    List (String × String) :=
  if containsKey d k then
    d.map (fun p => if p.1 = k then (k, v) else p)
  else d ++ [(k, v)]

/-- The `recovered` dict after the pattern1 loop of
`_recover_truncated_json`. -/
def recoveredDict (raw : String) : List (String × String) :=
  (findPairs raw.data).foldl (fun d p => dictInsert d p.1 (unescapeStr p.2)) []

/-- `LiteLLMProvider._recover_truncated_json`. -/
def recoverTruncatedJson (raw : String) : List (String × String) :=
  if recoveredDict raw = [] then [("raw", raw)]
  else
    match (findOpens raw.data).getLast? with
    | none => recoveredDict raw
    | some (k0, rest) =>
      if containsKey (recoveredDict raw) k0 then recoveredDict raw
      else recoveredDict raw ++
        [(k0, String.mk (unescapeChars (rstripBackslashes rest)))]

/-- The argument handling of `_parse_response`: `json.loads` on success
keeps the parsed value, and `json.JSONDecodeError` falls back to
`_recover_truncated_json`.  The Python stdlib JSON parser is abstracted as a
function returning `none` exactly on the strings it fails on. -/
def parseToolCallArgs {α : Type} (jsonLoads : String → Option α)
    (s : String) : α ⊕ List (String × String) :=
  match jsonLoads s with
  | some v => Sum.inl v
  | none => Sum.inr (recoverTruncatedJson s)

/-- The value the Python dict holds for key `k` after inserting every
recovered pair in order: the last pair with that key wins. -/
def lastValueFor (pairs : List (String × String)) (k : String) :
    Option String :=
  pairs.foldl (fun acc p => if p.1 = k then some (unescapeStr p.2) else acc)
    none

/-! ### Association-list lemmas for the recovered dict -/

/-- An absent key looks up to `none`. -/
theorem lookupKey_eq_none (d : List (String × String)) (k : String)
    (h : containsKey d k = false) : lookupKey d k = none := by
  induction d with
  | nil => rfl
  | cons p t ih =>
    simp only [containsKey, Bool.or_eq_false_iff, decide_eq_false_iff_not]
      at h
    simp only [lookupKey, if_neg h.1]
    exact ih h.2

/-- A present key ignores an appended suffix. -/
theorem lookupKey_append_some (d e : List (String × String)) (k v : String)
    (h : lookupKey d k = some v) : lookupKey (d ++ e) k = some v := by
  induction d with
  | nil => simp [lookupKey] at h
  | cons p t ih =>
    simp only [lookupKey] at h ⊢
    by_cases hp : p.1 = k
    · simpa [hp] using h
    · rw [if_neg hp] at h ⊢
      exact ih h

/-- An absent key falls through to the appended suffix. -/
theorem lookupKey_append_none (d e : List (String × String)) (k : String)
    (h : lookupKey d k = none) : lookupKey (d ++ e) k = lookupKey e k := by
  induction d with
  | nil => rfl
  | cons p t ih =>
    simp only [lookupKey] at h ⊢
    by_cases hp : p.1 = k
    · simp [hp] at h
    · rw [if_neg hp] at h ⊢
      exact ih h

/-- Appending concatenates membership. -/
theorem containsKey_append (d e : List (String × String)) (k : String) :
    containsKey (d ++ e) k = (containsKey d k || containsKey e k) := by
  induction d with
  | nil => simp [containsKey]
  | cons p t ih =>
    simp only [List.cons_append, containsKey, List.append_eq, ih,
      Bool.or_assoc]

/-- Rewriting the entries of one key leaves lookups of other keys alone. -/
theorem lookupKey_map_update_ne (d : List (String × String))
    (k' v' k : String) (hk : k' ≠ k) :
    lookupKey (d.map (fun p => if p.1 = k' then (k', v') else p)) k =
      lookupKey d k := by
  induction d with
  | nil => rfl
  | cons p t ih =>
    by_cases hp : p.1 = k'
    · simp only [List.map_cons, if_pos hp, lookupKey, if_neg hk]
      rw [if_neg (hp ▸ hk)]
      exact ih
    · simp only [List.map_cons, if_neg hp, lookupKey]
      by_cases hpk : p.1 = k
      · simp [hpk]
      · rw [if_neg hpk, if_neg hpk]
        exact ih

/-- Rewriting the entries of a present key makes it look up to the new
value. -/
theorem lookupKey_map_update_eq (d : List (String × String)) (k v' : String)
    (h : containsKey d k = true) :
    lookupKey (d.map (fun p => if p.1 = k then (k, v') else p)) k =
      some v' := by
  induction d with
  | nil => simp [containsKey] at h
  | cons p t ih =>
    by_cases hp : p.1 = k
    · simp [List.map_cons, if_pos hp, lookupKey]
    · simp only [containsKey, Bool.or_eq_true, decide_eq_true_eq] at h
      rcases h with h | h
      · exact absurd h hp
      · simp only [List.map_cons, if_neg hp, lookupKey, if_neg hp]
        exact ih h

/-- Lookup after a Python dict assignment. -/
theorem lookupKey_dictInsert (d : List (String × String)) (k' v' k : String) :
    lookupKey (dictInsert d k' v') k =
      if k' = k then some v' else lookupKey d k := by
  by_cases hc : containsKey d k' = true
  · rw [dictInsert, if_pos hc]
    by_cases hk : k' = k
    · subst hk
      rw [if_pos rfl]
      exact lookupKey_map_update_eq d k' v' hc
    · rw [if_neg hk]
      exact lookupKey_map_update_ne d k' v' k hk
  · rw [dictInsert, if_neg hc]
    by_cases hk : k' = k
    · subst hk
      rw [if_pos rfl,
        lookupKey_append_none d _ k'
          (lookupKey_eq_none d k' (Bool.eq_false_iff.mpr hc))]
      simp [lookupKey]
    · rw [if_neg hk]
      cases hl : lookupKey d k with
      | some v => rw [lookupKey_append_some d _ k v hl]
      | none =>
        rw [lookupKey_append_none d _ k hl]
        simp [lookupKey, hk]

/-- Rewriting the entries of one key preserves key membership. -/
theorem containsKey_map_update (d : List (String × String))
    (k' v' k : String) :
    containsKey (d.map (fun p => if p.1 = k' then (k', v') else p)) k =
      containsKey d k := by
  induction d with
  | nil => rfl
  | cons p t ih =>
    by_cases hp : p.1 = k'
    · subst hp
      simp [containsKey, ih]
    · simp [List.map_cons, if_neg hp, containsKey, ih]

/-- Key membership after a Python dict assignment. -/
theorem containsKey_dictInsert (d : List (String × String))
    (k' v' k : String) :
    containsKey (dictInsert d k' v') k =
      (containsKey d k || decide (k' = k)) := by
  by_cases hc : containsKey d k' = true
  · rw [dictInsert, if_pos hc, containsKey_map_update]
    by_cases hk : k' = k
    · subst hk
      simp [hc]
    · simp [hk]
  · rw [dictInsert, if_neg hc, containsKey_append]
    simp [containsKey]

/-- Lookup after folding Python dict assignments over the recovered pairs:
the last pair with the key wins. -/
theorem lookupKey_foldl_insert (l : List (String × String))
    (d : List (String × String)) (k : String) :
    lookupKey (l.foldl (fun d p => dictInsert d p.1 (unescapeStr p.2)) d) k =
      l.foldl (fun acc p => if p.1 = k then some (unescapeStr p.2) else acc)
        (lookupKey d k) := by
  induction l generalizing d with
  | nil => rfl
  | cons p t ih =>
    simp only [List.foldl_cons]
    rw [ih, lookupKey_dictInsert]

/-- Key membership after folding Python dict assignments. -/
theorem containsKey_foldl_insert (l : List (String × String))
    (d : List (String × String)) (k : String) :
    containsKey (l.foldl (fun d p => dictInsert d p.1 (unescapeStr p.2)) d) k
      = (containsKey d k || l.any (fun p => p.1 = k)) := by
  induction l generalizing d with
  | nil => simp
  | cons p t ih =>
    simp only [List.foldl_cons, List.any_cons]
    rw [ih, containsKey_dictInsert, Bool.or_assoc]

/-- A fold of last-wins updates starting from a set accumulator, or touching
a key present in the list, never ends unset. -/
theorem foldl_update_ne_none (k : String) (l : List (String × String))
    (acc : Option String)
    (h : acc ≠ none ∨ ∃ v, (k, v) ∈ l) :
    l.foldl (fun acc p => if p.1 = k then some (unescapeStr p.2) else acc) acc
      ≠ none := by
  induction l generalizing acc with
  | nil =>
    rcases h with h | ⟨v, hv⟩
    · exact h
    · simp at hv
  | cons p t ih =>
    simp only [List.foldl_cons]
    by_cases hp : p.1 = k
    · exact ih _ (Or.inl (by simp [if_pos hp]))
    · rcases h with h | ⟨v, hv⟩
      · exact ih _ (Or.inl (by simp [if_neg hp]; exact h))
      · rcases List.mem_cons.mp hv with heq | hmem
        · exact absurd (congrArg Prod.fst heq.symm) hp
        · exact ih _ (Or.inr ⟨v, hmem⟩)

/-- Key membership in the recovered dict is key membership in the pattern1
matches. -/
theorem containsKey_recoveredDict (raw : String) (k : String) :
    containsKey (recoveredDict raw) k =
      (findPairs raw.data).any (fun p => p.1 = k) := by
  have := containsKey_foldl_insert (findPairs raw.data) [] k
  simpa [recoveredDict, containsKey] using this

/-- The recovered dict is non-empty whenever pattern1 matched at all. -/
theorem recoveredDict_ne_nil (raw : String)
    (hp : findPairs raw.data ≠ []) : recoveredDict raw ≠ [] := by
  obtain ⟨p, t, hpt⟩ := List.exists_cons_of_ne_nil hp
  intro hnil
  have hc := containsKey_recoveredDict raw p.1
  rw [hnil, hpt] at hc
  simp [containsKey] at hc

/-! ### Claims C9, C10 -/

/-- A truncated argument string in which the unterminated last field reuses
the key of an earlier complete field. -/
def c9rawDup : String := "\x7b\"a\": \"1\", \"a\": \"x"

/-- A typical truncated argument string: one complete field, then an
unterminated one with a fresh key. -/
def c9rawTrunc : String := "\x7b\"path\": \"/tmp/x\", \"content\": \"abc"

/-- Counterexample to claim C9 as stated: on `c9rawDup` the last,
unterminated string field is `"a": "x` with tail `x`, but
`_recover_truncated_json` does not preserve that tail under key `a` — the
earlier complete value `1` is kept, because the tail is only added when its
key is not already in the recovered dict. -/
theorem c9_counterexample :
    findPairs c9rawDup.data = [("a", "1")]
    ∧ (findOpens c9rawDup.data).getLast? = some ("a", ['x'])
    ∧ recoverTruncatedJson c9rawDup = [("a", "1")]
    ∧ lookupKey (recoverTruncatedJson c9rawDup) "a" ≠ some "x" := by
  decide

/-- Claim C9, amended: for every raw string, when the recovery regex finds at
least one complete top-level `"key": "value"` field, `_recover_truncated_json`
returns a dict in which every extracted key is bound to the unescaped value
of its last complete occurrence, and the truncated tail of the last,
unterminated string field is preserved under that field's original key
provided that key was not already recovered from a complete field. -/
theorem c9_recovery_amended (raw : String)
    (hp : findPairs raw.data ≠ []) :
    (∀ k v, (k, v) ∈ findPairs raw.data →
        lookupKey (recoverTruncatedJson raw) k =
          lastValueFor (findPairs raw.data) k
      ∧ lastValueFor (findPairs raw.data) k ≠ none)
  ∧ (∀ k0 rest, (findOpens raw.data).getLast? = some (k0, rest) →
      (∀ v, (k0, v) ∉ findPairs raw.data) →
      lookupKey (recoverTruncatedJson raw) k0 =
        some (String.mk (unescapeChars (rstripBackslashes rest)))) := by
  have hne := recoveredDict_ne_nil raw hp
  have hlast : ∀ k, lookupKey (recoveredDict raw) k =
      lastValueFor (findPairs raw.data) k := by
    intro k
    have h := lookupKey_foldl_insert (findPairs raw.data) [] k
    simpa [recoveredDict, lastValueFor, lookupKey] using h
  constructor
  · intro k v hmem
    have hsome : lastValueFor (findPairs raw.data) k ≠ none :=
      foldl_update_ne_none k _ none (Or.inr ⟨v, hmem⟩)
    refine ⟨?_, hsome⟩
    unfold recoverTruncatedJson
    rw [if_neg hne]
    split
    · exact hlast k
    · split
      · exact hlast k
      · obtain ⟨v', hv'⟩ := Option.ne_none_iff_exists'.mp
          (show lookupKey (recoveredDict raw) k ≠ none by
            rw [hlast k]; exact hsome)
        rw [lookupKey_append_some _ _ k v' hv', ← hlast k, hv']
  · intro k0 rest hgl hnot
    have hany : (findPairs raw.data).any (fun p => p.1 = k0) = false := by
      rw [List.any_eq_false]
      rintro ⟨pk, pv⟩ hpmem
      simp only [decide_eq_true_eq]
      intro hpe
      exact hnot pv (by rw [← hpe]; exact hpmem)
    have hck : containsKey (recoveredDict raw) k0 = false := by
      rw [containsKey_recoveredDict, hany]
    unfold recoverTruncatedJson
    rw [if_neg hne, hgl]
    dsimp only
    rw [if_neg (by simp [hck])]
    rw [lookupKey_append_none _ _ k0 (lookupKey_eq_none _ k0 hck)]
    simp [lookupKey]

/-- Witness for C9 (amended) on `c9rawTrunc`: the complete `path` field is
recovered, and the truncated tail `abc` of the fresh key `content` is
preserved. -/
theorem c9_recovery_amended_witness :
    lookupKey (recoverTruncatedJson c9rawTrunc) "content" = some "abc" := by
  have h := (c9_recovery_amended c9rawTrunc (by decide)).2 "content"
    "abc".data (by decide)
    (by
      intro v hv
      have hpairs : findPairs c9rawTrunc.data = [("path", "/tmp/x")] := by
        decide
      rw [hpairs] at hv
      simp at hv)
  rw [h]
  decide

/-- Claim C10: when the recovery regex finds no complete `"key": "value"`
field, `_recover_truncated_json` returns exactly the dict binding `raw` to
the whole input; the recovered dict is never empty, and the argument
handling of `_parse_response` falls back to it on every string `json.loads`
fails on, so tool-call argument parsing never propagates a JSON parse
failure. -/
theorem c10_parse_never_fails :
    (∀ raw : String, findPairs raw.data = [] →
        recoverTruncatedJson raw = [("raw", raw)])
  ∧ (∀ raw : String, recoverTruncatedJson raw ≠ [])
  ∧ (∀ (α : Type) (jsonLoads : String → Option α) (s : String),
      jsonLoads s = none →
        parseToolCallArgs jsonLoads s = Sum.inr (recoverTruncatedJson s)) := by
  refine ⟨?_, ?_, ?_⟩
  · intro raw hp
    have hrec : recoveredDict raw = [] := by
      rw [recoveredDict, hp]
      rfl
    rw [recoverTruncatedJson, if_pos hrec]
  · intro raw
    by_cases hp : findPairs raw.data = []
    · have hrec : recoveredDict raw = [] := by
        rw [recoveredDict, hp]
        rfl
      rw [recoverTruncatedJson, if_pos hrec]
      simp
    · have hne := recoveredDict_ne_nil raw hp
      rw [recoverTruncatedJson, if_neg hne]
      split
      · exact hne
      · split
        · exact hne
        · simp
  · intro α jsonLoads s h
    rw [parseToolCallArgs, h]

/-- Witness for C10 on a pair-free malformed string and a failing JSON
load. -/
theorem c10_parse_never_fails_witness :
    recoverTruncatedJson "notjson" = [("raw", "notjson")]
    ∧ parseToolCallArgs (fun _ => (none : Option Nat)) "oops" =
        Sum.inr (recoverTruncatedJson "oops") :=
  ⟨c10_parse_never_fails.1 "notjson" (by decide),
   c10_parse_never_fails.2.2 Nat (fun _ => none) "oops" rfl⟩

/-! ## `ragnarbot/agent/subagent.py` — spawn validation and tool registry -/

/-- `SAFE_TOOL_NAMES` from `subagent.py` (a Python set, modelled as the list
of its members and used only through membership and sorting). -/
def SAFE_TOOL_NAMES : List String :=
  ["file_read", "file_write", "file_edit", "list_dir",
   "exec", "web_search", "web_fetch", "browser",
   "exec_bg", "poll", "output", "kill", "dismiss"]

/-- An `allowed_tools` / `allowed_skills` frontmatter value from
`agents_loader.AgentDefinition`: either a bare string (such as `all` or
`none`) or an explicit bracketed list. -/
inductive ToolsVal where
  | strv (s : String)
  | listv (l : List String)
deriving DecidableEq, Repr

/-- `AgentDefinition` from `agents_loader.py`. -/
structure AgentDefinition where
  name : String
  description : String
  model : String
  allowed_tools : ToolsVal
  allowed_skills : ToolsVal
  body : String
  path : String
deriving DecidableEq, Repr

/-- Code-point lexicographic comparison of character lists (the order
Python string comparison uses). -/
def charListLt : List Char → List Char → Bool
  | [], [] => false
  | [], _ :: _ => true
  | _ :: _, [] => false
  | a :: as, b :: bs =>
    if a.toNat < b.toNat then true
    else if b.toNat < a.toNat then false
    else charListLt as bs

/-- Python `<` on strings. -/
def strLt (a b : String) : Bool := charListLt a.data b.data

/-- Insertion into an ascending list of strings. -/
def insertSorted (x : String) : List String → List String
  | [] => [x]
  | y :: ys => if strLt y x then y :: insertSorted x ys else x :: y :: ys

/-- Ascending insertion sort on strings (Python `sorted`, which compares
strings by code points). -/
def sortStrings (l : List String) : List String := l.foldr insertSorted []

/-- Duplicate removal keeping first occurrences. -/
def dedupKeepFirst (seen : List String) : List String → List String
  | [] => []
  | x :: xs =>
    if x ∈ seen then dedupKeepFirst seen xs
    else x :: dedupKeepFirst (x :: seen) xs

/-- Python `sorted(set(l))` for strings: the distinct elements in ascending
order. -/
def sortedSet (l : List String) : List String :=
  sortStrings (dedupKeepFirst [] l)

/-- Python truthiness of an optional string: `None` and the empty string are
falsy. -/
def pyTruthy (s : Option String) : Bool := s.getD "" ≠ ""

/-- The fields of `AgentTask` that `spawn` fills in.  The `asyncio` handles
(`stop_event`, the background task object) and the live message list carry
no data at spawn time and are not modelled. -/
structure AgentTaskRecord where
  id : String
  label : String
  agent_name : Option String
  task : String
  resolved_model : String
  origin_channel : String
  origin_chat_id : String
deriving DecidableEq, Repr

/-- Outcome of `SubagentManager.spawn`: the returned status string, the
tasks map after the call, and whether a background task was launched. -/
structure SpawnOutcome where
  returned : String
  tasks : List (String × AgentTaskRecord)
  launched : Bool
deriving DecidableEq, Repr

/-- `display_label = label or task[:40] + ("..." if len(task) > 40 else "")`. -/
def displayLabelOf (label : Option String) (task : String) : String :=
  let dflt := task.take 40 ++ (if 40 < task.length then "..." else "")
  match label with
  | some l => if l = "" then dflt else l
  | none => dflt

/-- Model resolution: explicit `model` argument, then the definition's model
when not `default`, then the manager default. -/
def resolveModel (defaultModel : String) (defn : Option AgentDefinition)
    (model : Option String) : String :=
  if pyTruthy model = true then model.getD ""
  else
    match defn with
    | some d => if d.model ≠ "default" then d.model else defaultModel
    | none => defaultModel

/-- The task-creating tail of `spawn`: allocate the `AgentTask`, store it in
the tasks map, launch the background task, and return the status string. -/
def spawnStart (defaultModel : String)
    (tasks : List (String × AgentTaskRecord)) (task : String)
    (agent_name : Option String) (model label : Option String)
    (origin_channel origin_chat_id task_id : String)
    (defn : Option AgentDefinition) : SpawnOutcome :=
  ⟨"Agent task started (id: " ++ task_id ++ ", agent: "
      ++ (if pyTruthy agent_name = true then agent_name.getD ""
          else "general-purpose")
      ++ "). Use agent_progress to check status.",
    tasks ++ [(task_id,
      ⟨task_id, displayLabelOf label task, agent_name, task,
        resolveModel defaultModel defn model,
        origin_channel, origin_chat_id⟩)],
    true⟩

/-- The allowed-tools validation and task creation of `spawn`, after agent
resolution: an explicit `allowed_tools` list with names outside
`SAFE_TOOL_NAMES` is rejected, everything else proceeds to `spawnStart`. -/
def spawnValidate (defaultModel : String)
    (tasks : List (String × AgentTaskRecord)) (task : String)
    (agent_name : Option String) (model : Option String)
    (label : Option String)
    (origin_channel origin_chat_id task_id : String)
    (defn : Option AgentDefinition) : SpawnOutcome :=
  match defn with
  | some d =>
    match d.allowed_tools with
    | .listv l =>
      if sortedSet (l.filter (fun n => n ∉ SAFE_TOOL_NAMES)) = [] then
        spawnStart defaultModel tasks task agent_name model label
          origin_channel origin_chat_id task_id defn
      else
        ⟨"Error: Agent " ++ squote ++ agent_name.getD "" ++ squote ++
            " references unknown tools: " ++
            String.intercalate ", "
              (sortedSet (l.filter (fun n => n ∉ SAFE_TOOL_NAMES))) ++
            ". Allowed: " ++
            String.intercalate ", " (sortedSet SAFE_TOOL_NAMES) ++ ".",
          tasks, false⟩
    | .strv _ =>
      spawnStart defaultModel tasks task agent_name model label
        origin_channel origin_chat_id task_id defn
  | none =>
    spawnStart defaultModel tasks task agent_name model label
      origin_channel origin_chat_id task_id defn

/-- `SubagentManager.spawn`: agent resolution, allowed-tool validation, then
task creation.  `loadAgent` stands for `self.agents_loader.load_agent` and
`task_id` for the fresh `uuid4` prefix. -/
def spawn (loadAgent : String → Option AgentDefinition)
    (defaultModel : String) (tasks : List (String × AgentTaskRecord))
    (task : String) (agent_name : Option String) (model : Option String)
    (label : Option String)
    (origin_channel origin_chat_id task_id : String) : SpawnOutcome :=
  if pyTruthy agent_name = true then
    match loadAgent (agent_name.getD "") with
    | none =>
      ⟨"Error: Agent " ++ squote ++ agent_name.getD "" ++ squote ++
          " not found.", tasks, false⟩
    | some d =>
      spawnValidate defaultModel tasks task agent_name model label
        origin_channel origin_chat_id task_id (some d)
  else
    spawnValidate defaultModel tasks task agent_name model label
      origin_channel origin_chat_id task_id none

/-- `insertSorted` never yields the empty list. -/
theorem insertSorted_ne_nil (x : String) (l : List String) :
    insertSorted x l ≠ [] := by
  cases l with
  | nil => simp [insertSorted]
  | cons y ys =>
    rw [insertSorted]
    split <;> simp

/-- `sortedSet` of a non-empty list is non-empty. -/
theorem sortedSet_ne_nil (l : List String) (h : l ≠ []) :
    sortedSet l ≠ [] := by
  obtain ⟨x, xs, rfl⟩ := List.exists_cons_of_ne_nil h
  rw [sortedSet, dedupKeepFirst]
  simp only [List.not_mem_nil, if_neg (fun h => h)]
  rw [sortStrings, List.foldr_cons]
  exact insertSorted_ne_nil _ _

/-! ### Claim C4 -/

/-- Claim C4: when the resolved agent definition carries an explicit
`allowed_tools` list containing a name outside `SAFE_TOOL_NAMES`, `spawn`
returns the `references unknown tools` error string (with the sorted unknown
names and the sorted safe set), leaves the tasks map unchanged, and launches
no background task. -/
theorem c4_spawn_unknown_tools
    (loadAgent : String → Option AgentDefinition) (defaultModel : String)
    (tasks : List (String × AgentTaskRecord)) (task : String)
    (model label : Option String)
    (origin_channel origin_chat_id task_id : String)
    (nm : String) (d : AgentDefinition) (l : List String) (n : String)
    (hnm : nm ≠ "") (hload : loadAgent nm = some d)
    (hl : d.allowed_tools = .listv l)
    (hn : n ∈ l) (hsafe : n ∉ SAFE_TOOL_NAMES) :
    spawn loadAgent defaultModel tasks task (some nm) model label
        origin_channel origin_chat_id task_id =
      ⟨"Error: Agent " ++ squote ++ nm ++ squote ++
          " references unknown tools: " ++
          String.intercalate ", "
            (sortedSet (l.filter (fun n => n ∉ SAFE_TOOL_NAMES))) ++
          ". Allowed: " ++
          String.intercalate ", " (sortedSet SAFE_TOOL_NAMES) ++ ".",
        tasks, false⟩ := by
  have htr : pyTruthy (some nm) = true := by simp [pyTruthy, hnm]
  have hmemf : n ∈ l.filter (fun n => n ∉ SAFE_TOOL_NAMES) :=
    List.mem_filter.mpr ⟨hn, by simpa using hsafe⟩
  have hunk : sortedSet (l.filter (fun n => n ∉ SAFE_TOOL_NAMES)) ≠ [] :=
    sortedSet_ne_nil _ (List.ne_nil_of_mem hmemf)
  unfold spawn
  rw [if_pos htr]
  simp only [Option.getD_some]
  rw [hload]
  dsimp only
  unfold spawnValidate
  dsimp only
  rw [hl]
  dsimp only
  rw [if_neg hunk]
  simp only [Option.getD_some]

set_option maxRecDepth 4000 in
/-- Witness for C4: a profile allowing only `send_photo` is rejected with
the fully rendered error message, no task created, nothing launched. -/
theorem c4_spawn_unknown_tools_witness :
    spawn
      (fun _ => some ⟨"photo", "", "default", .listv ["send_photo"],
        .strv "none", "", ""⟩)
      "m" [] "t" (some "photo") none none "cli" "direct" "abcd1234" =
      ⟨"Error: Agent " ++ squote ++ "photo" ++ squote ++
        " references unknown tools: send_photo. Allowed: browser, dismiss, "
        ++ "exec, exec_bg, file_edit, file_read, file_write, kill, "
        ++ "list_dir, output, poll, web_fetch, web_search.", [], false⟩ := by
  have h := c4_spawn_unknown_tools
    (fun _ => some ⟨"photo", "", "default", .listv ["send_photo"],
      .strv "none", "", ""⟩)
    "m" [] "t" none none "cli" "direct" "abcd1234"
    "photo" ⟨"photo", "", "default", .listv ["send_photo"],
      .strv "none", "", ""⟩ ["send_photo"] "send_photo"
    (by decide) rfl rfl (by decide) (by decide)
  rw [h]
  decide

/-! ### Claim C5 -/

/-- `allowed_skills != "none"` from the source (a list value never equals
the string `none`). -/
def skillsNotNone : ToolsVal → Bool
  | .strv s => s ≠ "none"
  | .listv _ => true

/-- The `allowed` set computed at the top of `_build_agent_tool_registry`
before the skills auto-add: an explicit list is taken as is, a bare string
other than `all` as a singleton, and `all` or an absent definition admit
the full safe set. -/
def admittedTools (defn : Option AgentDefinition) : List String :=
  match defn with
  | some d =>
    match d.allowed_tools with
    | .strv s => if s = "all" then SAFE_TOOL_NAMES else [s]
    | .listv l => l
  | none => SAFE_TOOL_NAMES

/-- The `allowed` set after the `file_read` auto-add: `file_read` is added
whenever a definition is present and its `allowed_skills` is not `none`. -/
def admittedWithSkills (defn : Option AgentDefinition) : List String :=
  match defn with
  | some d =>
    if skillsNotNone d.allowed_skills = true then
      if "file_read" ∈ admittedTools defn then admittedTools defn
      else admittedTools defn ++ ["file_read"]
    else admittedTools defn
  | none => admittedTools defn

/-- `_build_agent_tool_registry`: the names of the registered tools in
registration order — file tools, shell, web, browser (only with a browser
manager), background-process tools, then always the `deliver_result`
sentinel.  `hasBrowserManager` stands for `self.browser_manager` being
non-`None`. -/
def buildAgentToolRegistry (defn : Option AgentDefinition)
    (hasBrowserManager : Bool) : List String :=
  (["file_read", "file_write", "file_edit", "list_dir"].filter
      (fun n => n ∈ admittedWithSkills defn))
  ++ (["exec"].filter (fun n => n ∈ admittedWithSkills defn))
  ++ (["web_search", "web_fetch"].filter
      (fun n => n ∈ admittedWithSkills defn))
  ++ (if "browser" ∈ admittedWithSkills defn ∧ hasBrowserManager = true
      then ["browser"] else [])
  ++ (["exec_bg", "poll", "output", "kill", "dismiss"].filter
      (fun n => n ∈ admittedWithSkills defn))
  ++ ["deliver_result"]

/-- Membership in `if P then [x] else []`. -/
theorem mem_ite_singleton {P : Prop} [Decidable P] {x n : String}
    (hn : n ∈ (if P then [x] else ([] : List String))) : P ∧ n = x := by
  split at hn
  · exact ⟨by assumption, by simpa using hn⟩
  · simp at hn

/-- Every registered tool is `deliver_result` or admitted. -/
theorem registry_subset_admitted (defn : Option AgentDefinition) (hb : Bool)
    (n : String) (hn : n ∈ buildAgentToolRegistry defn hb) :
    n = "deliver_result" ∨ n ∈ admittedWithSkills defn := by
  simp only [buildAgentToolRegistry, List.mem_append] at hn
  rcases hn with ((((h | h) | h) | h) | h) | h
  · exact Or.inr (by simpa using (List.mem_filter.mp h).2)
  · exact Or.inr (by simpa using (List.mem_filter.mp h).2)
  · exact Or.inr (by simpa using (List.mem_filter.mp h).2)
  · obtain ⟨⟨hmem, _⟩, rfl⟩ := mem_ite_singleton h
    exact Or.inr hmem
  · exact Or.inr (by simpa using (List.mem_filter.mp h).2)
  · exact Or.inl (by simpa using h)

/-- With skills allowed, `file_read` is in the admitted set. -/
theorem file_read_admitted (d : AgentDefinition)
    (hs : skillsNotNone d.allowed_skills = true) :
    "file_read" ∈ admittedWithSkills (some d) := by
  rw [admittedWithSkills]
  rw [if_pos hs]
  split
  · assumption
  · simp

/-- Claim C5: every registry contains the `deliver_result` sentinel; with an
explicit `allowed_tools` list every registered tool other than
`deliver_result` is listed or is the `file_read` auto-add for skills; a
non-`none` `allowed_skills` always registers `file_read`; an absent
definition or `allowed_tools = "all"` admits exactly `SAFE_TOOL_NAMES`; and
an empty list with skills `none` yields exactly `[deliver_result]`. -/
theorem c5_registry_build (defn : Option AgentDefinition) (hb : Bool) :
    ("deliver_result" ∈ buildAgentToolRegistry defn hb)
  ∧ (∀ d l, defn = some d → d.allowed_tools = .listv l →
      ∀ n ∈ buildAgentToolRegistry defn hb, n ≠ "deliver_result" →
        n ∈ l ∨ (n = "file_read" ∧ skillsNotNone d.allowed_skills = true))
  ∧ (∀ d, defn = some d → skillsNotNone d.allowed_skills = true →
      "file_read" ∈ buildAgentToolRegistry defn hb)
  ∧ (defn = none → admittedWithSkills defn = SAFE_TOOL_NAMES)
  ∧ (∀ d, defn = some d → d.allowed_tools = .strv "all" →
      admittedWithSkills defn = SAFE_TOOL_NAMES)
  ∧ (∀ d, defn = some d → d.allowed_tools = .listv [] →
      skillsNotNone d.allowed_skills = false →
      buildAgentToolRegistry defn hb = ["deliver_result"]) := by
  refine ⟨?_, ?_, ?_, ?_, ?_, ?_⟩
  · simp [buildAgentToolRegistry]
  · rintro d l rfl hl n hn hne
    rcases registry_subset_admitted (some d) hb n hn with h | h
    · exact absurd h hne
    · rw [admittedWithSkills] at h
      by_cases hs : skillsNotNone d.allowed_skills = true
      · rw [if_pos hs] at h
        split at h
        · left
          rwa [admittedTools, hl] at h
        · rw [admittedTools, hl] at h
          rcases List.mem_append.mp h with h | h
          · exact Or.inl h
          · exact Or.inr ⟨by simpa using h, hs⟩
      · rw [if_neg hs] at h
        left
        rwa [admittedTools, hl] at h
  · rintro d rfl hs
    have hmem := file_read_admitted d hs
    simp only [buildAgentToolRegistry, List.mem_append]
    exact Or.inl (Or.inl (Or.inl (Or.inl (Or.inl
      (List.mem_filter.mpr ⟨by simp, by simpa using hmem⟩)))))
  · rintro rfl
    rfl
  · rintro d rfl hall
    rw [admittedWithSkills]
    have hadm : admittedTools (some d) = SAFE_TOOL_NAMES := by
      rw [admittedTools, hall]
      rfl
    split
    · rw [hadm]
      split
      · rfl
      · exact absurd (show "file_read" ∈ SAFE_TOOL_NAMES by decide)
          (by assumption)
    · exact hadm
  · rintro d rfl hl hs
    have hadm : admittedWithSkills (some d) = [] := by
      rw [admittedWithSkills, if_neg (by simp [hs]), admittedTools, hl]
    rw [buildAgentToolRegistry, hadm]
    rfl

/-- Witness for C5 at a definition allowing only `file_read` with skills
`none`, and at the empty-list definition. -/
theorem c5_registry_build_witness :
    ("deliver_result" ∈ buildAgentToolRegistry
      (some ⟨"a", "", "default", .listv ["file_read"], .strv "none", "", ""⟩)
      false)
    ∧ buildAgentToolRegistry
        (some ⟨"a", "", "default", .listv [], .strv "none", "", ""⟩) true =
      ["deliver_result"] :=
  ⟨(c5_registry_build
      (some ⟨"a", "", "default", .listv ["file_read"], .strv "none", "", ""⟩)
      false).1,
   (c5_registry_build
      (some ⟨"a", "", "default", .listv [], .strv "none", "", ""⟩) true).2.2.2.2.2
      ⟨"a", "", "default", .listv [], .strv "none", "", ""⟩ rfl rfl rfl⟩

/-! ## `SubagentManager._run_agent` — the sub-agent execution loop

The loop is embedded as a function over a script of per-iteration external
inputs: whether the stop event is observed set at the top of the iteration,
and what the wrapped LLM call returns.  A run that exhausts its script is
reported as such and is not a terminal outcome.  The `used_fallback`
bookkeeping and logging have no effect on the modelled state. -/

/-- `AgentTaskStatus` from `subagent.py`. -/
inductive AgentTaskStatus where
  | running
  | completed
  | stopped
  | error
deriving DecidableEq, Repr

/-- A tool call from an LLM response (`ToolCallRequest`).  `arguments`
holds the JSON-serialized argument object (`json.dumps(tc.arguments)`);
`metadata` is the optional pass-through blob. -/
structure ToolCall where
  id : String
  name : String
  arguments : String
  metadata : Option String := none
deriving DecidableEq, Repr

/-- `LLMResponse` as consumed by the loop (`providers/base.py`). -/
structure LLMResponse where
  content : Option String
  tool_calls : List ToolCall
  finish_reason : String
deriving DecidableEq, Repr

/-- Modelled from the spec: `LLMResponse.has_tool_calls` — the sources do
not include `providers/base.py`; per the spec's agent-loop transitions,
"Response has tool calls" holds exactly when `tool_calls` is non-empty. -/
def LLMResponse.hasToolCalls (r : LLMResponse) : Bool :=
  !r.tool_calls.isEmpty

/-- One conversation message as the loop records it. -/
structure ChatMessage where
  role : String
  content : String
  tool_calls : List ToolCall := []
  tool_call_id : String := ""
  name : String := ""
deriving DecidableEq, Repr

/-- Modelled from the spec: `InboundMessage` (§3 data model; the sources do
not include `bus/events.py`) restricted to the fields the announcement
populates. -/
structure InboundMessage where
  channel : String
  sender_id : String
  chat_id : String
  content : String
deriving DecidableEq, Repr

/-- What one wrapped LLM call produces: a response together with the
`used_fallback` flag, or no response at all. -/
inductive ChatOutcome where
  | ok (r : LLMResponse) (used_fallback : Bool)
  | noResponse
deriving DecidableEq, Repr

/-- One iteration's external input. -/
structure IterInput where
  stopSet : Bool
  chat : ChatOutcome
deriving DecidableEq, Repr

/-- The per-run constants of `_run_agent`: the task's label and prompt, the
origin, the formatted elapsed-time string (`""` when unavailable — wall
clock is not modelled), the total tool dispatch `tools.execute` (the
registry converts tool failures into result strings), and the payload the
`deliver_result` sentinel records on its shared handle when executed
(modelled from the spec; the tool body is not among the sources). -/
structure RunEnv where
  label : String
  task : String
  origin_channel : String
  origin_chat_id : String
  elapsed : String
  execTool : ToolCall → String
  deliverPayload : ToolCall → String

/-- The mutable state threaded by the loop: the message list, the task's
status / result / error fields, the `DeliverResultTool.result` handle, the
trace of tool calls actually executed, and the announcements published on
the bus. -/
structure RunState where
  messages : List ChatMessage
  status : AgentTaskStatus
  result : Option String
  error : Option String
  delivered : Option String
  executed : List ToolCall
  announcements : List InboundMessage
deriving DecidableEq, Repr

/-- Python `a or b` for an optional string: `None` and `""` fall through. -/
def pyOrStr (a : Option String) (b : String) : String :=
  match a with
  | some s => if s = "" then b else s
  | none => b

/-- The `status_text` mapping of `_announce_result`. -/
def statusTextOf (status : String) : String :=
  if status = "ok" then "completed successfully"
  else if status = "error" then "failed"
  else if status = "stopped" then "was stopped"
  else status

/-- The announcement content built by `_announce_result`. -/
def announceContent (env : RunEnv) (st : RunState) (status : String) :
    String :=
  "[Agent task " ++ squote ++ env.label ++ squote ++ " "
    ++ statusTextOf status
    ++ (if env.elapsed = "" then "" else " in " ++ env.elapsed)
    ++ "]\n\nTask: " ++ env.task ++ "\n\nResult:\n"
    ++ pyOrStr st.result (pyOrStr st.error "No output.")

/-- `_announce_result`: publish the result announcement on the bus. -/
def announceResult (env : RunEnv) (st : RunState) (status : String) :
    RunState :=
  { st with announcements := st.announcements ++
      [⟨"system", "subagent",
        env.origin_channel ++ ":" ++ env.origin_chat_id,
        announceContent env st status⟩] }

/-- The assistant message the loop appends for a tool-calling response. -/
def assistantMsgOf (r : LLMResponse) : ChatMessage :=
  { role := "assistant", content := r.content.getD "",
    tool_calls := r.tool_calls }

/-- The per-call truncation error text from `_run_agent`. -/
def truncErrText : String :=
  "Error: response was cut off (max_tokens limit reached) and this tool "
    ++ "call was incomplete. Your output must fit within the token limit. "
    ++ "Split large content into smaller calls."

/-- The tool message appended for each rejected call of a truncated
response. -/
def truncToolMsg (tc : ToolCall) : ChatMessage :=
  { role := "tool", content := truncErrText, tool_call_id := tc.id,
    name := tc.name }

/-- The tool message appended for an executed call. -/
def execToolMsg (env : RunEnv) (tc : ToolCall) : ChatMessage :=
  { role := "tool", content := env.execTool tc, tool_call_id := tc.id,
    name := tc.name }

/-- Execute one tool call: append its result message, record the execution,
and let `deliver_result` set the shared handle. -/
def execOne (env : RunEnv) (st : RunState) (tc : ToolCall) : RunState :=
  { st with
    messages := st.messages ++ [execToolMsg env tc],
    executed := st.executed ++ [tc],
    delivered := if tc.name = "deliver_result"
      then some (env.deliverPayload tc) else st.delivered }

/-- How a run under a finite script ends: a terminal return of
`_run_agent`, or the script ran out mid-loop. -/
inductive RunOutcome where
  | terminal
  | outOfScript
deriving DecidableEq, Repr

/-- `_run_agent`'s `while True` loop.  Stop check, LLM call, the
`RuntimeError` path for a missing or error response (caught by the `except`
clause, which sets the error status and announces), truncation handling,
tool execution, the `deliver_result` exit, and the implicit text-response
completion. -/
def runLoop (env : RunEnv) :
    List IterInput → RunState → RunState × RunOutcome
  | [], st => (st, .outOfScript)
  | it :: rest, st =>
    match it.stopSet with
    | true =>
      (announceResult env
        { st with
            status := AgentTaskStatus.stopped,
            result := some "Task was stopped by user." } "stopped",
        .terminal)
    | false =>
      match it.chat with
      | .noResponse =>
        (announceResult env
          { st with
              status := AgentTaskStatus.error,
              error := some "LLM call failed" } "error",
          .terminal)
      | .ok r _ =>
        if r.finish_reason = "error" then
          (announceResult env
            { st with
                status := AgentTaskStatus.error,
                error := some (match r.content with
                  | some c => c
                  | none => "None") } "error",
            .terminal)
        else if r.hasToolCalls = true then
          if r.finish_reason = "length" then
            runLoop env rest
              { st with
                  messages := st.messages ++ [assistantMsgOf r]
                    ++ r.tool_calls.map truncToolMsg }
          else
            match (r.tool_calls.foldl (execOne env)
                { st with
                    messages := st.messages ++ [assistantMsgOf r] }).delivered
              with
            | some res =>
              (announceResult env
                { r.tool_calls.foldl (execOne env)
                    { st with
                        messages := st.messages ++ [assistantMsgOf r] } with
                    status := AgentTaskStatus.completed,
                    result := some res } "ok",
                .terminal)
            | none =>
              runLoop env rest
                (r.tool_calls.foldl (execOne env)
                  { st with
                      messages := st.messages ++ [assistantMsgOf r] })
        else
          (announceResult env
            { st with
                status := AgentTaskStatus.completed,
                result := some (pyOrStr r.content
                  "Task completed (no output).") } "ok",
            .terminal)

/-! ### Claim C3 -/

/-- Claim C3: when a response has non-empty `tool_calls` and
`finish_reason = "length"`, the iteration executes no tool (the executed
trace passed on is unchanged), appends after the assistant message one tool
message per call carrying that call's id and a content starting with
`Error: response was cut off`, and continues the loop with the next LLM
call. -/
theorem c3_truncation_no_execution (env : RunEnv) (r : LLMResponse)
    (uf : Bool) (rest : List IterInput) (st : RunState)
    (hcalls : r.tool_calls ≠ []) (hlen : r.finish_reason = "length") :
    (runLoop env (⟨false, .ok r uf⟩ :: rest) st =
      runLoop env rest
        { st with
            messages := st.messages ++ [assistantMsgOf r]
              ++ r.tool_calls.map truncToolMsg })
    ∧ ({ st with
          messages := st.messages ++ [assistantMsgOf r]
            ++ r.tool_calls.map truncToolMsg } : RunState).executed
        = st.executed
    ∧ (∀ tc ∈ r.tool_calls,
        (truncToolMsg tc).role = "tool"
      ∧ (truncToolMsg tc).tool_call_id = tc.id
      ∧ ∃ t, (truncToolMsg tc).content = "Error: response was cut off" ++ t) := by
  have herr : ¬ r.finish_reason = "error" := by rw [hlen]; decide
  have htc : r.hasToolCalls = true := by
    simp [LLMResponse.hasToolCalls, hcalls]
  refine ⟨?_, rfl, ?_⟩
  · rw [runLoop]
    dsimp only
    rw [if_neg herr, if_pos htc, if_pos hlen]
  · intro tc _
    refine ⟨rfl, rfl,
      ⟨" (max_tokens limit reached) and this tool call was incomplete. "
        ++ "Your output must fit within the token limit. "
        ++ "Split large content into smaller calls.", ?_⟩⟩
    rfl

/-- A concrete run environment for the loop witnesses. -/
def witEnv : RunEnv :=
  ⟨"label", "do the task", "cli", "direct", "", fun _ => "ok",
    fun tc => tc.arguments⟩

/-- A concrete initial run state. -/
def witState : RunState :=
  ⟨[], AgentTaskStatus.running, none, none, none, [], []⟩

/-- A truncated tool-calling response. -/
def witTruncResponse : LLMResponse :=
  ⟨some "partial", [⟨"call1", "file_write", "", none⟩], "length"⟩

/-- Witness for C3: a concrete truncated tool-calling iteration skips
execution and appends the error tool message. -/
theorem c3_truncation_no_execution_witness :
    runLoop witEnv [⟨false, .ok witTruncResponse false⟩] witState =
      runLoop witEnv []
        { witState with
            messages := witState.messages ++ [assistantMsgOf witTruncResponse]
              ++ witTruncResponse.tool_calls.map truncToolMsg } :=
  (c3_truncation_no_execution witEnv witTruncResponse false [] witState
    (by decide) rfl).1

/-! ### Claim C6 -/

/-- Tool execution does not publish announcements. -/
theorem execOne_announcements (env : RunEnv) (st : RunState)
    (tc : ToolCall) : (execOne env st tc).announcements = st.announcements :=
  rfl

/-- A batch of tool executions does not publish announcements. -/
theorem foldl_execOne_announcements (env : RunEnv) (l : List ToolCall)
    (st : RunState) :
    (l.foldl (execOne env) st).announcements = st.announcements := by
  induction l generalizing st with
  | nil => rfl
  | cons tc t ih => rw [List.foldl_cons, ih, execOne_announcements]

/-- Claim C6: every run that reaches a terminal status publishes exactly one
result announcement, with channel `system`, chat id
`<origin_channel>:<origin_chat_id>`, and content
`[Agent task '<label>' <status_text>[ in <elapsed>]]` followed by the
`Task:` and `Result:` blocks, where `<status_text>` is
`completed successfully`, `was stopped`, or `failed` according to the
terminal status. -/
theorem c6_single_announcement (env : RunEnv) (script : List IterInput)
    (st : RunState) (hann : st.announcements = [])
    (hterm : (runLoop env script st).2 = .terminal) :
    ∃ stText resContent,
      (runLoop env script st).1.announcements =
        [⟨"system", "subagent",
          env.origin_channel ++ ":" ++ env.origin_chat_id,
          "[Agent task " ++ squote ++ env.label ++ squote ++ " " ++ stText
            ++ (if env.elapsed = "" then "" else " in " ++ env.elapsed)
            ++ "]\n\nTask: " ++ env.task ++ "\n\nResult:\n" ++ resContent⟩]
    ∧ (((runLoop env script st).1.status = AgentTaskStatus.completed
          ∧ stText = "completed successfully")
      ∨ ((runLoop env script st).1.status = AgentTaskStatus.stopped
          ∧ stText = "was stopped")
      ∨ ((runLoop env script st).1.status = AgentTaskStatus.error
          ∧ stText = "failed")) := by
  induction script generalizing st with
  | nil =>
    rw [runLoop] at hterm
    simp at hterm
  | cons it rest ih =>
    obtain ⟨stopSet, chat⟩ := it
    cases stopSet with
    | true =>
      rw [runLoop]
      dsimp only
      simp only [announceResult, announceContent]
      rw [hann]
      refine ⟨_, _, rfl, ?_⟩
      exact Or.inr (Or.inl ⟨by trivial, by rfl⟩)
    | false =>
      rw [runLoop] at hterm ⊢
      dsimp only at hterm ⊢
      cases chat with
      | noResponse =>
        dsimp only
        simp only [announceResult, announceContent]
        rw [hann]
        refine ⟨_, _, rfl, ?_⟩
        exact Or.inr (Or.inr ⟨by trivial, by rfl⟩)
      | ok r uf =>
        dsimp only at hterm ⊢
        by_cases herr : r.finish_reason = "error"
        · rw [if_pos herr] at hterm ⊢
          simp only [announceResult, announceContent]
          rw [hann]
          refine ⟨_, _, rfl, ?_⟩
          exact Or.inr (Or.inr ⟨by trivial, by rfl⟩)
        · rw [if_neg herr] at hterm ⊢
          by_cases htc : r.hasToolCalls = true
          · rw [if_pos htc] at hterm ⊢
            by_cases hlen : r.finish_reason = "length"
            · rw [if_pos hlen] at hterm ⊢
              exact ih _ hann hterm
            · rw [if_neg hlen] at hterm ⊢
              cases hdel : (r.tool_calls.foldl (execOne env)
                  { st with
                      messages :=
                        st.messages ++ [assistantMsgOf r] }).delivered with
              | some res =>
                rw [hdel] at hterm
                dsimp only at hterm ⊢
                simp only [announceResult, announceContent]
                rw [foldl_execOne_announcements]
                rw [show ({ st with
                    messages := st.messages ++ [assistantMsgOf r]
                      } : RunState).announcements = st.announcements from rfl,
                  hann]
                refine ⟨_, _, rfl, ?_⟩
                exact Or.inl ⟨by trivial, by rfl⟩
              | none =>
                rw [hdel] at hterm
                dsimp only at hterm ⊢
                exact ih _
                  ((foldl_execOne_announcements env r.tool_calls _).trans hann)
                  hterm
          · rw [if_neg htc] at hterm ⊢
            simp only [announceResult, announceContent]
            rw [hann]
            refine ⟨_, _, rfl, ?_⟩
            exact Or.inl ⟨by trivial, by rfl⟩

/-- A concrete one-iteration script ending in an implicit text-response
completion. -/
def witScript : List IterInput :=
  [⟨false, .ok ⟨some "done", [], "stop"⟩ false⟩]

/-- Witness for C6: the concrete text-response run publishes exactly its one
announcement. -/
theorem c6_single_announcement_witness :
    ∃ stText resContent,
      (runLoop witEnv witScript witState).1.announcements =
        [⟨"system", "subagent",
          witEnv.origin_channel ++ ":" ++ witEnv.origin_chat_id,
          "[Agent task " ++ squote ++ witEnv.label ++ squote ++ " " ++ stText
            ++ (if witEnv.elapsed = "" then "" else " in " ++ witEnv.elapsed)
            ++ "]\n\nTask: " ++ witEnv.task ++ "\n\nResult:\n" ++ resContent⟩]
    ∧ (((runLoop witEnv witScript witState).1.status
            = AgentTaskStatus.completed
          ∧ stText = "completed successfully")
      ∨ ((runLoop witEnv witScript witState).1.status
            = AgentTaskStatus.stopped
          ∧ stText = "was stopped")
      ∨ ((runLoop witEnv witScript witState).1.status
            = AgentTaskStatus.error
          ∧ stText = "failed")) :=
  c6_single_announcement witEnv witScript witState rfl rfl

/-! ## `LiteLLMProvider.chat` — call structure (claim C8)

The `try`/`except` tail of `chat` (`litellm_provider.py`, lines 119–127):
one `acompletion` call; on success the parsed response is returned, on any
exception an error `LLMResponse` is returned immediately.  The embedding
takes the sequence of outcomes `acompletion` would produce on successive
calls, so that a retry — if the code performed one — would consume a second
element; the returned pair carries the number of `acompletion` calls made. -/

/-- One outcome of an `acompletion` call: a response already parsed by
`_parse_response`, or a raised exception rendered by `str(e)`. -/
inductive AcompOutcome where
  | success (r : LLMResponse)
  | raises (msg : String)
deriving DecidableEq, Repr

/-- The `try`/`except` tail of `LiteLLMProvider.chat`: the response it
returns and how many `acompletion` calls it makes, given the outcome of the
first call and the outcomes any further calls would produce. -/
def chatTry (first : AcompOutcome) (_later : List AcompOutcome) :
    LLMResponse × Nat :=
  match first with
  | .success r => (r, 1)
  | .raises msg =>
    ({ content := some ("Error calling LLM: " ++ msg), tool_calls := [],
       finish_reason := "error" }, 1)

/-- The Gemini free-tier cache-storage rate-limit message from
`tests/test_gemini_cache_retry.py`. -/
def geminiFreeTierMsg : String :=
  "TotalCachedContentStorageTokensPerModelFreeTier limit exceeded"

/-- Claim C8 names behaviour the code does not have: when the first
`acompletion` call raises the Gemini free-tier cache-storage rate-limit
error, `chat` returns the error response after exactly one call — it never
issues the retry (with cache markers stripped) that the spec and
`tests/test_gemini_cache_retry.py` describe, even though a successful
outcome is available for a second call.  The repository's tests expect two
calls and `finish_reason = "stop"` here. -/
theorem c8_no_cache_retry :
    chatTry (.raises geminiFreeTierMsg)
        [.success ⟨some "Hello!", [], "stop"⟩] =
      ({ content := some ("Error calling LLM: " ++ geminiFreeTierMsg),
         tool_calls := [], finish_reason := "error" }, 1)
    ∧ (chatTry (.raises geminiFreeTierMsg)
        [.success ⟨some "Hello!", [], "stop"⟩]).1.finish_reason = "error"
    ∧ (chatTry (.raises geminiFreeTierMsg)
        [.success ⟨some "Hello!", [], "stop"⟩]).2 = 1 := by
  refine ⟨rfl, rfl, rfl⟩
